import Mathlib

/-!
Shallow embedding of `src/services/transcription.py` (class `TranscriptionService`)
and proofs of the specification claims about it.

Modelling conventions:
* Python floats are modelled as `ℚ` (the claims only involve exactly
  representable values; no NaN/rounding behaviour is relied on).
* Python `int` is modelled as `ℤ` where the source can receive negative
  values (`max_retries`), `ℕ` for indices.
* The external speech-to-text provider is an oracle
  `provider : ℤ → ProviderResp` per chunk (indexed by attempt number),
  and `ℕ → ℤ → ProviderResp` at the coordinator level (chunk, attempt).
* The ffprobe duration probe is an oracle `Option ℚ`, and per-index
  segment extraction success is an oracle `ℕ → Bool` (collapsing the
  stream-copy / re-encode fallback pair into "a chunk file was produced").
* Raising an exception is modelled by `Except`/an explicit outcome value.
-/

set_option maxRecDepth 8192

/-- Response of the provider (`client.audio.transcriptions.create`) for one
attempt: success carries the `text`, the `language` that
`getattr(response, "language", "unknown")` yields, and the duration that
`getattr(response, "duration", None)` yields; failure carries `str(e)`. -/
inductive ProviderResp where
  | ok (text language : String) (duration : Option ℚ)
  | err (msg : String)
deriving DecidableEq, Repr

/-- The per-chunk result dictionary built by `_transcribe_single`
(`{"index": ..., "text": ..., "language": ..., "duration": ...}`). -/
structure ChunkResult where
  index : ℕ
  text : String
  language : String
  duration : Option ℚ
deriving DecidableEq, Repr

/-- Outcome of one call of `_transcribe_single`: a returned dictionary, a
raised exception (carrying its message), or the implicit `return None`
fall-through after the `for attempt in range(max_retries + 1)` loop ends. -/
inductive TSOutcome where
  | ret (r : ChunkResult)
  | raised (msg : String)
  | fallThrough
deriving DecidableEq, Repr

/-- Substring test on character lists, modelling Python's `needle in hay`. -/
def listContains (hay needle : List Char) : Bool :=
  match hay with
  | [] => needle.isEmpty
  | _ :: t => needle.isPrefixOf hay || listContains t needle

/-- Models `"429" in error_str or "rate_limit" in error_str.lower()`
(transcription.py line 188). -/
def isRateLimit (msg : String) : Bool :=
  listContains msg.toList "429".toList ||
    listContains (msg.toList.map Char.toLower) "rate_limit".toList

/-- Attempt to match the regex `try again in (\d+)m?([\d.]+)?s?` at the head
of `l`, returning the two capture groups on success.  Group 1 (`\d+`) is
mandatory; group 2 (`[\d.]+`, optional) is `none` when it captured nothing.
The trailing `s?` consumes no capture and is irrelevant to the groups. -/
def hintAt (l : List Char) : Option (List Char × Option (List Char)) :=
  let lit := "try again in ".toList
  if lit.isPrefixOf l then
    let rest := l.drop lit.length
    let g1 := rest.takeWhile Char.isDigit
    if g1.isEmpty then none
    else
      let rest1 := rest.dropWhile Char.isDigit
      let rest2 := match rest1 with
        | 'm' :: t => t
        | _ => rest1
      let g2 := rest2.takeWhile (fun c => c.isDigit || c == '.')
      some (g1, if g2.isEmpty then none else some g2)
  else none

/-- Models `re.search(r'try again in (\d+)m?([\d.]+)?s?', error_str)`:
the leftmost position where the pattern matches, with greedy groups. -/
def findHintAux : List Char → Option (List Char × Option (List Char))
  | [] => none
  | c :: t =>
    match hintAt (c :: t) with
    | some g => some g
    | none => findHintAux t

/-- Decimal digit string to number, modelling Python `int(...)` on a
nonempty digit-only capture. -/
def parseNatDigits (l : List Char) : ℕ :=
  l.foldl (fun a c => a * 10 + (c.toNat - 48)) 0

/-- Models Python `float(s)` on a string made only of digits and dots
(the shape of capture group 2): `none` models a raised `ValueError`
(empty, lone dot, or more than one dot), otherwise the rational value. -/
def parsePyFloat (l : List Char) : Option ℚ :=
  if l.count '.' == 0 then
    if l.isEmpty then none else some (parseNatDigits l)
  else if l.count '.' == 1 then
    let ip := l.takeWhile (fun c => c ≠ '.')
    let fp := (l.dropWhile (fun c => c ≠ '.')).drop 1
    if ip.isEmpty && fp.isEmpty then none
    else some ((parseNatDigits ip : ℚ) + (parseNatDigits fp : ℚ) / 10 ^ fp.length)
  else none

/-- The back-off wait computed at transcription.py lines 189-196 for a
rate-limited attempt: parsed hint `minutes*60 + seconds + 5`, else the
fallback `60 * (attempt + 1)`.  `none` models a `ValueError` raised by
`float(...)` on a malformed group 2. -/
def computeWait (msg : String) (attempt : ℤ) : Option ℚ :=
  match findHintAux msg.toList with
  | some (g1, g2) =>
    let minutes : ℚ := parseNatDigits g1
    match g2 with
    | none => some (minutes * 60 + 0 + 5)
    | some frac =>
      match parsePyFloat frac with
      | none => none
      | some s => some (minutes * 60 + s + 5)
  | none => some (60 * ((attempt : ℚ) + 1))

/-- The body of `for attempt in range(max_retries + 1)` in
`_transcribe_single` (lines 164-205).  `fuel` is the number of loop
iterations left, `attempt` the current loop variable; the returned `ℕ`
counts provider calls made.  Exhausting `fuel` is the loop ending, i.e.
the function's implicit `return None`. -/
def tsLoop (provider : ℤ → ProviderResp) (chunkIndex : ℕ) (maxRetries : ℤ) :
    ℤ → ℕ → TSOutcome × ℕ
  | _, 0 => (.fallThrough, 0)
  | attempt, fuel + 1 =>
    match provider attempt with
    | .ok t lang d => (.ret ⟨chunkIndex, t, lang, d⟩, 1)
    | .err m =>
      if isRateLimit m then
        match computeWait m attempt with
        | none => (.raised "ValueError", 1)
        | some _ =>
          if attempt < maxRetries then
            let r := tsLoop provider chunkIndex maxRetries (attempt + 1) fuel
            (r.1, r.2 + 1)
          else (.raised m, 1)
      else (.raised m, 1)

/-- `_transcribe_single(file_path, chunk_index, total_chunks, language,
max_retries)`: the loop runs over `range(max_retries + 1)`, which is empty
when `max_retries + 1 ≤ 0` — exactly `(maxRetries + 1).toNat` iterations. -/
def transcribeSingle (provider : ℤ → ProviderResp) (chunkIndex : ℕ)
    (maxRetries : ℤ) : TSOutcome × ℕ :=
  tsLoop provider chunkIndex maxRetries 0 (maxRetries + 1).toNat

/-- A staged file: the original whole blob (`temp_path`) or a produced
chunk file `chunk_{i:03d}{ext}` inside the splitter's temp directory. -/
inductive Segment where
  | whole
  | chunk (i : ℕ)
deriving DecidableEq, Repr

/-- `MAX_FILE_SIZE = 25 * 1024 * 1024` (transcription.py line 15). -/
def MAX_FILE_SIZE : ℕ := 25 * 1024 * 1024

/-- `CHUNK_DURATION = 1500` seconds (transcription.py line 18). -/
def CHUNK_DURATION : ℚ := 1500

/-- `int(duration // chunk_duration) + (1 if duration % chunk_duration > 0
else 0)` (line 84), for a positive `chunk_duration` (Python float `//` is
the floor of the quotient and `%` has the divisor's sign). -/
def numChunksFor (d c : ℚ) : ℤ :=
  ⌊d / c⌋ + (if 0 < d - c * ⌊d / c⌋ then 1 else 0)

/-- `_split_audio` (lines 63-139).  `duration` is the ffprobe oracle
(`none` models a failed probe; `some 0` is also falsy for `if not
duration`); `extractOk i` tells whether a chunk file for index `i` was
produced (by stream copy or by the re-encode fallback).  The `mkdtemp`
directory creation and cleanup are modelled separately
(`transcribeCleanup`). -/
def splitAudio (duration : Option ℚ) (chunkDur : ℚ) (extractOk : ℕ → Bool) :
    List Segment :=
  match duration with
  | none => [.whole]
  | some d =>
    if d = 0 then [.whole]
    else if numChunksFor d chunkDur = 1 then [.whole]
    else if ((List.range (numChunksFor d chunkDur).toNat).filterMap
        (fun i => if extractOk i then some (Segment.chunk i) else none)).isEmpty
      then [.whole]
    else (List.range (numChunksFor d chunkDur).toNat).filterMap
      (fun i => if extractOk i then some (Segment.chunk i) else none)

/-- The failure placeholder appended at transcription.py lines 274-279:
`{"index": i, "text": f"[Chunk {i+1} failed: {str(e)[:50]}]",
"language": "unknown", "duration": None}`. -/
def placeholderFor (i : ℕ) (msg : String) : ChunkResult :=
  ⟨i, "[Chunk " ++ toString (i + 1) ++ " failed: " ++ msg.take 50 ++ "]",
    "unknown", none⟩

/-- Python's sort key `lambda x: x["index"]` under the standard `≤`. -/
def chunkLe (a b : ChunkResult) : Bool := a.index ≤ b.index

/-- Lines 288-308: join texts with `"\n\n"`, sum `r.get("duration") or 0`,
pick the first language `!= "unknown"` (else `"unknown"`), and return
duration only when the total is positive. -/
structure Aggregate where
  text : String
  language : String
  duration : Option ℚ
deriving DecidableEq, Repr

/-- Aggregate construction from the (already ordered) result list
(transcription.py lines 288-308). -/
def combineResults (results : List ChunkResult) : Aggregate :=
  let fullText := String.intercalate "\n\n" (results.map (fun r => r.text))
  let totalDuration : ℚ := (results.map (fun r => r.duration.getD 0)).sum
  let lang :=
    ((results.find? (fun r => r.language != "unknown")).map
      (fun r => r.language)).getD "unknown"
  ⟨fullText, lang, if 0 < totalDuration then some totalDuration else none⟩

/-- Lines 239-244: split when `file_size > MAX_FILE_SIZE`, else the staged
blob is the single chunk. -/
def chunkPathsOf (fileSize : ℕ) (duration : Option ℚ) (extractOk : ℕ → Bool) :
    List Segment :=
  if MAX_FILE_SIZE < fileSize then splitAudio duration CHUNK_DURATION extractOk
  else [.whole]

/-- What the coordinator appends for chunk `i` when its future completes
(lines 267-279): the returned dictionary, or the failure placeholder when
`future.result()` re-raised; `none` models the unreachable case where
`_transcribe_single` fell through and returned `None`. -/
def collectOne (provider : ℕ → ℤ → ProviderResp) (i : ℕ) : Option ChunkResult :=
  match (transcribeSingle (provider i) i 3).1 with
  | .ret r => some r
  | .raised e => some (placeholderFor i e)
  | .fallThrough => none

/-- `transcribe(audio_data, file_extension, language)` (lines 207-312),
up to but not including the `finally` cleanup (see `transcribeCleanup`).
`completionOrder` is the order in which `as_completed` yields the chunk
futures (a permutation of the chunk indices in any real execution).
`.error msg` models the call re-raising an exception with that message
(a `None` entry reaching `results.sort`/`r["text"]` would raise a
`TypeError`). -/
def transcribe (fileSize : ℕ) (duration : Option ℚ) (extractOk : ℕ → Bool)
    (provider : ℕ → ℤ → ProviderResp) (completionOrder : List ℕ) :
    Except String Aggregate :=
  if 1 < (chunkPathsOf fileSize duration extractOk).length then
    if (completionOrder.map (collectOne provider)).all Option.isSome then
      .ok (combineResults
        ((completionOrder.map (collectOne provider)).reduceOption.mergeSort chunkLe))
    else .error "TypeError"
  else
    match (transcribeSingle (provider 0) 0 3).1 with
    | .ret r => .ok (combineResults [r])
    | .raised e => .error e
    | .fallThrough => .error "TypeError"

/-- The chunk result that reaches the coordinator's `results` list for
chunk `i` when `_transcribe_single` terminates normally or by raising
(the fall-through case, proved unreachable for the coordinator's fixed
`max_retries = 3`, is given an arbitrary placeholder). -/
def resOf (provider : ℕ → ℤ → ProviderResp) (i : ℕ) : ChunkResult :=
  match (transcribeSingle (provider i) i 3).1 with
  | .ret r => r
  | .raised e => placeholderFor i e
  | .fallThrough => placeholderFor i ""

/-- Filesystem release events of one `transcribe` call, as performed by the
`finally` block (lines 314-332): `temp_path.unlink()`, one `unlink` per
path in `chunks_to_cleanup`, then one `chunk.parent.rmdir()` attempt per
path in `chunks_to_cleanup` (each wrapped in `try/except: pass`).
`dirCreated` records whether `_split_audio` ran `tempfile.mkdtemp()`
(line 74), which happens exactly when the size check routed through the
splitter.  The `finally` block runs on every exit path, so the trace does
not depend on provider outcomes. -/
structure CleanupTrace where
  dirCreated : Bool
  blobUnlinks : ℕ
  chunkUnlinkList : List Segment
  rmdirAttempts : ℕ
deriving DecidableEq, Repr

/-- `chunks_to_cleanup = [p for p in chunk_paths if p != temp_path]`
(line 242; empty when no split happened). -/
def toCleanupOf (fileSize : ℕ) (duration : Option ℚ) (extractOk : ℕ → Bool) :
    List Segment :=
  (chunkPathsOf fileSize duration extractOk).filter
    (fun s => s != Segment.whole)

/-- The cleanup trace of `transcribe` for given inputs. -/
def transcribeCleanup (fileSize : ℕ) (duration : Option ℚ)
    (extractOk : ℕ → Bool) : CleanupTrace :=
  { dirCreated := MAX_FILE_SIZE < fileSize
    blobUnlinks := 1
    chunkUnlinkList := toCleanupOf fileSize duration extractOk
    rmdirAttempts := (toCleanupOf fileSize duration extractOk).length }

/-- Number of times the staging directory is actually removed: the first
`rmdir` attempt succeeds (all chunk files inside were unlinked just
before), every later attempt raises `ENOTEMPTY`/`ENOENT` and is swallowed;
with no attempt the directory is never removed. -/
def CleanupTrace.dirReleases (t : CleanupTrace) : ℕ :=
  if 0 < t.rmdirAttempts then 1 else 0

/-! ### Helper lemmas about the retry loop -/

/-- Once the loop has at least one iteration left and will reach
`attempt = maxRetries` on its last iteration, it cannot fall through:
every branch returns or raises, and the `continue` branch is guarded by
`attempt < max_retries`. -/
theorem tsLoop_ne_fallThrough (p : ℤ → ProviderResp) (idx : ℕ) (maxR : ℤ) :
    ∀ (fuel : ℕ) (a : ℤ), a + fuel = maxR + 1 → 1 ≤ fuel →
      (tsLoop p idx maxR a fuel).1 ≠ .fallThrough := by
  intro fuel
  induction fuel with
  | zero => intro a _ h; omega
  | succ n ih =>
    intro a hsum _
    simp only [tsLoop]
    split
    · simp
    · split
      · split
        · simp
        · split
          · rename_i hlt
            have h1 : 1 ≤ n := by push_cast at hsum; omega
            have h2 : a + 1 + (n : ℤ) = maxR + 1 := by push_cast at hsum ⊢; omega
            simpa using ih (a + 1) h2 h1
          · simp
      · simp

/-- The loop makes at most `fuel` provider calls. -/
theorem tsLoop_calls_le (p : ℤ → ProviderResp) (idx : ℕ) (maxR : ℤ) :
    ∀ (fuel : ℕ) (a : ℤ), (tsLoop p idx maxR a fuel).2 ≤ fuel := by
  intro fuel
  induction fuel with
  | zero => intro a; simp [tsLoop]
  | succ n ih =>
    intro a
    simp only [tsLoop]
    split
    · simp
    · split
      · split
        · simp
        · split
          · simpa using ih (a + 1)
          · simp
      · simp

/-- A dictionary returned by the loop carries the chunk index it was
called with. -/
theorem tsLoop_ret_index (p : ℤ → ProviderResp) (idx : ℕ) (maxR : ℤ) :
    ∀ (fuel : ℕ) (a : ℤ) (r : ChunkResult),
      (tsLoop p idx maxR a fuel).1 = .ret r → r.index = idx := by
  intro fuel
  induction fuel with
  | zero => intro a r h; simp [tsLoop] at h
  | succ n ih =>
    intro a r
    simp only [tsLoop]
    split
    · rename_i t lang d _
      intro h
      simp only [TSOutcome.ret.injEq] at h
      rw [h.symm]
    · split
      · split
        · intro h; simp at h
        · split
          · intro h; exact ih (a + 1) r (by simpa using h)
          · intro h; simp at h
      · intro h; simp at h

/-- If the loop makes more than `k + 1` calls, then the call at attempt
`a + k` got an error classified as a rate limit (the only branch that
continues the loop). -/
theorem tsLoop_retry_rate (p : ℤ → ProviderResp) (idx : ℕ) (maxR : ℤ) :
    ∀ (fuel : ℕ) (a : ℤ) (k : ℕ), k + 1 < (tsLoop p idx maxR a fuel).2 →
      ∃ m, p (a + k) = .err m ∧ isRateLimit m = true := by
  intro fuel
  induction fuel with
  | zero => intro a k h; simp [tsLoop] at h
  | succ n ih =>
    intro a k
    simp only [tsLoop]
    split
    · intro h; simp at h
    · rename_i m hp
      split
      · rename_i hrate
        split
        · intro h; simp at h
        · split
          · match k with
            | 0 => intro _; exact ⟨m, by simpa using hp, hrate⟩
            | k' + 1 =>
              intro h
              simp only at h
              have h' : k' + 1 < (tsLoop p idx maxR (a + 1) n).2 := by omega
              have := ih (a + 1) k' h'
              have hcast : a + 1 + (k' : ℤ) = a + ((k' : ℤ) + 1) := by ring
              push_cast
              push_cast [hcast] at this
              exact this
          · intro h; simp at h
      · intro h; simp at h

/-- If the run reaches attempt `a + k` and the provider answers it with an
error that is not classified as a rate limit, the loop raises that very
error there: no further call is made. -/
theorem tsLoop_err_prop (p : ℤ → ProviderResp) (idx : ℕ) (maxR : ℤ) :
    ∀ (fuel : ℕ) (a : ℤ) (k : ℕ) (m : String),
      k + 1 ≤ (tsLoop p idx maxR a fuel).2 → p (a + k) = .err m →
      isRateLimit m = false →
      (tsLoop p idx maxR a fuel).1 = .raised m ∧
        (tsLoop p idx maxR a fuel).2 = k + 1 := by
  intro fuel
  induction fuel with
  | zero => intro a k m h _ _; simp [tsLoop] at h
  | succ n ih =>
    intro a k m
    match k with
    | 0 =>
      intro _ hp hr
      rw [show a + (0 : ℕ) = a by push_cast; ring] at hp
      simp only [tsLoop, hp, hr]
      simp
    | k' + 1 =>
      intro hn hp hr
      simp only [tsLoop] at hn ⊢
      cases hp₀ : p a with
      | ok t lang d => rw [hp₀] at hn; simp at hn
      | err m₀ =>
        rw [hp₀] at hn
        by_cases hrate : isRateLimit m₀ = true
        · simp only [hrate, if_true] at hn ⊢
          cases hw : computeWait m₀ a with
          | none => rw [hw] at hn; simp at hn
          | some w =>
            rw [hw] at hn
            by_cases hlt : a < maxR
            · simp only [if_pos hlt] at hn ⊢
              have hn' : k' + 1 ≤ (tsLoop p idx maxR (a + 1) n).2 := by omega
              have hp' : p (a + 1 + (k' : ℕ)) = .err m := by
                rw [show a + 1 + ((k' : ℕ) : ℤ) = a + (((k' + 1 : ℕ) : ℤ)) by
                  push_cast; ring]
                exact hp
              have hrec := ih (a + 1) k' m hn' hp' hr
              refine ⟨by simpa using hrec.1, ?_⟩
              have := hrec.2
              omega
            · rw [if_neg hlt] at hn; simp at hn
        · simp only [Bool.not_eq_true] at hrate
          simp [hrate] at hn

/-- With a non-negative `max_retries` the loop body runs at least once and
`_transcribe_single` cannot fall through to an implicit `None`. -/
theorem transcribeSingle_ne_fallThrough (p : ℤ → ProviderResp) (idx : ℕ)
    (maxR : ℤ) (h : 0 ≤ maxR) :
    (transcribeSingle p idx maxR).1 ≠ .fallThrough := by
  unfold transcribeSingle
  apply tsLoop_ne_fallThrough
  · omega
  · omega

/-- The coordinator collects an actual dictionary for every chunk: with
the fixed `max_retries = 3`, `_transcribe_single` never returns `None`. -/
theorem collectOne_eq_some (provider : ℕ → ℤ → ProviderResp) (i : ℕ) :
    collectOne provider i = some (resOf provider i) := by
  unfold collectOne resOf
  cases h : (transcribeSingle (provider i) i 3).1 with
  | ret r => rfl
  | raised e => rfl
  | fallThrough =>
    exact absurd h (transcribeSingle_ne_fallThrough (provider i) i 3 (by omega))

/-- Every collected result carries its own chunk index. -/
theorem resOf_index (provider : ℕ → ℤ → ProviderResp) (i : ℕ) :
    (resOf provider i).index = i := by
  unfold resOf
  cases h : (transcribeSingle (provider i) i 3).1 with
  | ret r => exact tsLoop_ret_index (provider i) i 3 _ 0 r h
  | raised e => rfl
  | fallThrough => rfl

/-- The key sort `results.sort(key=lambda x: x["index"])` determines the
list uniquely when the indices are distinct: sorting any permutation of a
list of distinct-index results gives the same sorted list. -/
theorem mergeSort_map_eq (f : ℕ → ChunkResult) (hf : ∀ j, (f j).index = j)
    {l l' : List ℕ} (hnd : l'.Nodup) (hp : l.Perm l') :
    (l.map f).mergeSort chunkLe = (l'.map f).mergeSort chunkLe := by
  have htrans : ∀ a b c : ChunkResult, chunkLe a b → chunkLe b c →
      chunkLe a c := by
    intro a b c hab hbc
    simp only [chunkLe, decide_eq_true_eq] at hab hbc ⊢
    omega
  have htotal : ∀ a b : ChunkResult, chunkLe a b || chunkLe b a := by
    intro a b
    simp only [chunkLe]
    rcases Nat.le_total a.index b.index with h | h <;> simp [h]
  have hperm : ((l.map f).mergeSort chunkLe).Perm ((l'.map f).mergeSort chunkLe) :=
    ((List.mergeSort_perm (l.map f) chunkLe).trans (hp.map f)).trans
      (List.mergeSort_perm (l'.map f) chunkLe).symm
  have hmapidx : (l'.map f).map (fun r => r.index) = l' := by
    rw [List.map_map]
    have : ((fun r => ChunkResult.index r) ∘ f) = fun j => j := by
      funext j; exact hf j
    rw [this, List.map_id']
  have hnd₂ : (((l'.map f).mergeSort chunkLe).map (fun r => r.index)).Nodup := by
    have hpm : (((l'.map f).mergeSort chunkLe).map (fun r => r.index)).Perm l' := by
      have := (List.mergeSort_perm (l'.map f) chunkLe).map (fun r => r.index)
      rwa [hmapidx] at this
    exact hpm.nodup_iff.mpr hnd
  have hnd₁ : (((l.map f).mergeSort chunkLe).map (fun r => r.index)).Nodup := by
    have := (hperm.map (fun r => r.index)).nodup_iff
    exact this.mpr hnd₂
  have hstrict : ∀ (ms : List ChunkResult),
      ms.Pairwise (fun a b => chunkLe a b = true) →
      (ms.map (fun r => r.index)).Nodup →
      ms.Pairwise (fun a b => a.index < b.index) := by
    intro ms hs hn
    have hne : ms.Pairwise (fun a b => a.index ≠ b.index) := by
      have := List.pairwise_map.mp hn
      exact this.imp (fun h => h)
    refine (hs.and hne).imp ?_
    intro a b hab
    have h1 : a.index ≤ b.index := by
      have := hab.1
      simpa [chunkLe] using this
    exact lt_of_le_of_ne h1 hab.2
  have hs₁ := List.sorted_mergeSort htrans htotal (l.map f)
  have hs₂ := List.sorted_mergeSort htrans htotal (l'.map f)
  haveI : IsAntisymm ChunkResult (fun a b => a.index < b.index) :=
    ⟨fun a b h1 h2 => absurd (h1.trans h2) (lt_irrefl _)⟩
  exact List.eq_of_perm_of_sorted hperm
    (hstrict _ hs₁ hnd₁) (hstrict _ hs₂ hnd₂)

/-- Collecting the futures when every chunk yields an actual dictionary. -/
theorem reduceOption_map_some (g : ℕ → ChunkResult) (l : List ℕ) :
    (l.map (fun i => some (g i))).reduceOption = l.map g := by
  induction l with
  | nil => rfl
  | cons a t ih => simp [List.reduceOption_cons_of_some, ih]

/-- The multi-chunk path of `transcribe`: with more than one chunk, the
call returns the aggregate of the collected per-chunk results sorted by
index — for every provider behaviour and every completion order. -/
theorem transcribe_multi (size : ℕ) (dur : Option ℚ) (ext : ℕ → Bool)
    (provider : ℕ → ℤ → ProviderResp) (order : List ℕ)
    (hn : 1 < (chunkPathsOf size dur ext).length) :
    transcribe size dur ext provider order =
      .ok (combineResults ((order.map (resOf provider)).mergeSort chunkLe)) := by
  unfold transcribe
  rw [if_pos hn]
  have hmap : order.map (collectOne provider) =
      order.map (fun i => some (resOf provider i)) :=
    List.map_congr_left (fun i _ => collectOne_eq_some provider i)
  rw [hmap, reduceOption_map_some]
  have hall : (order.map (fun i => some (resOf provider i))).all
      Option.isSome = true := by
    simp
  rw [if_pos hall]

/-- The multi-chunk path when the completion order happens to already be
sorted by index: the sort is the identity. -/
theorem transcribe_multi_sorted (size : ℕ) (dur : Option ℚ) (ext : ℕ → Bool)
    (provider : ℕ → ℤ → ProviderResp) (order : List ℕ)
    (hn : 1 < (chunkPathsOf size dur ext).length)
    (hsort : (order.map (resOf provider)).Pairwise
      (fun a b => chunkLe a b = true)) :
    transcribe size dur ext provider order =
      .ok (combineResults (order.map (resOf provider))) := by
  rw [transcribe_multi size dur ext provider order hn,
    List.mergeSort_of_sorted hsort]

/-- `combineResults` on a single result returns its text and language
verbatim; the duration survives only when positive. -/
theorem combineResults_single (r : ChunkResult) :
    combineResults [r] = ⟨r.text, r.language,
      if 0 < r.duration.getD 0 then some (r.duration.getD 0) else none⟩ := by
  unfold combineResults
  have htext : String.intercalate "\n\n" [r.text] = r.text := rfl
  have hlang : (([r].find? (fun r => r.language != "unknown")).map
      (fun r => r.language)).getD "unknown" = r.language := by
    by_cases h : r.language = "unknown"
    · rw [List.find?_cons_of_neg _ (by simp [h])]
      simp [h]
    · rw [List.find?_cons_of_pos _ (by simpa using h)]
      simp
  simp only [List.map_cons, List.map_nil, List.sum_cons, List.sum_nil,
    add_zero, htext, hlang]

/-- `combineResults` on a success followed by a failure placeholder: the
placeholder marker is appended after the blank-line separator, the
language and duration come from the successful result alone. -/
theorem combineResults_with_placeholder (r : ChunkResult) (j : ℕ) (e : String) :
    combineResults [r, placeholderFor j e] =
      ⟨r.text ++ "\n\n" ++ "[Chunk " ++ toString (j + 1) ++ " failed: " ++
          e.take 50 ++ "]",
        r.language,
        if 0 < r.duration.getD 0 then some (r.duration.getD 0) else none⟩ := by
  have htext : String.intercalate "\n\n" [r.text, (placeholderFor j e).text] =
      r.text ++ "\n\n" ++ (placeholderFor j e).text := rfl
  have hlang : (([r, placeholderFor j e].find?
      (fun r => r.language != "unknown")).map (fun r => r.language)).getD
        "unknown" = r.language := by
    by_cases h : r.language = "unknown"
    · rw [List.find?_cons_of_neg _ (by simp [h]),
        List.find?_cons_of_neg _ (by simp [placeholderFor])]
      simp [h]
    · rw [List.find?_cons_of_pos _ (by simpa using h)]
      simp
  unfold combineResults
  simp only [List.map_cons, List.map_nil, List.sum_cons, List.sum_nil,
    add_zero, htext, hlang]
  have hdur : (placeholderFor j e).duration.getD 0 = 0 := rfl
  rw [hdur, add_zero]
  have htext₂ : r.text ++ "\n\n" ++ (placeholderFor j e).text =
      r.text ++ "\n\n" ++ "[Chunk " ++ toString (j + 1) ++ " failed: " ++
        e.take 50 ++ "]" := by
    unfold placeholderFor
    simp only [String.append_assoc]
  rw [htext₂]

/-! ### Helper lemmas about the splitter -/

/-- The chunk-count formula of line 84 computes the ceiling of
`duration / chunk_duration`, for any positive chunk duration. -/
theorem numChunksFor_eq_ceil (d c : ℚ) (hc : 0 < c) :
    numChunksFor d c = ⌈d / c⌉ := by
  unfold numChunksFor
  have hd : c * (d / c) = d := mul_div_cancel₀ d (ne_of_gt hc)
  have hcond : (0 < d - c * ⌊d / c⌋) ↔ ((⌊d / c⌋ : ℚ) < d / c) := by
    constructor
    · intro h
      by_contra hcon
      have hle : d / c ≤ (⌊d / c⌋ : ℚ) := not_lt.mp hcon
      have : d ≤ c * ⌊d / c⌋ := by
        calc d = c * (d / c) := hd.symm
        _ ≤ c * ⌊d / c⌋ := by
          exact mul_le_mul_of_nonneg_left hle (le_of_lt hc)
      linarith
    · intro h
      have : c * (⌊d / c⌋ : ℚ) < c * (d / c) :=
        mul_lt_mul_of_pos_left h hc
      rw [hd] at this
      linarith
  by_cases h : (⌊d / c⌋ : ℚ) < d / c
  · rw [if_pos (hcond.mpr h)]
    have h1 : ⌈d / c⌉ ≤ ⌊d / c⌋ + 1 := by
      apply Int.ceil_le.mpr
      push_cast
      exact (Int.lt_floor_add_one (d / c)).le
    have h2 : ⌊d / c⌋ + 1 ≤ ⌈d / c⌉ := by
      have hq : (⌊d / c⌋ : ℚ) < (⌈d / c⌉ : ℚ) :=
        lt_of_lt_of_le h (Int.le_ceil (d / c))
      have : ⌊d / c⌋ < ⌈d / c⌉ := by exact_mod_cast hq
      omega
    omega
  · rw [if_neg (fun hh => h (hcond.mp hh))]
    have hq : d / c = (⌊d / c⌋ : ℚ) :=
      le_antisymm (not_lt.mp h) (Int.floor_le (d / c))
    rw [add_zero, hq, Int.ceil_intCast, Int.floor_intCast]

/-- The splitter always returns at least one segment. -/
theorem splitAudio_ne_nil (dur : Option ℚ) (c : ℚ) (ext : ℕ → Bool) :
    splitAudio dur c ext ≠ [] := by
  cases dur with
  | none => simp [splitAudio]
  | some d =>
    simp only [splitAudio]
    split
    · simp
    · split
      · simp
      · split
        · simp
        · rename_i hne
          intro hcon
          rw [hcon] at hne
          exact hne rfl

/-- The segment list produced by the splitter has no duplicates. -/
theorem splitAudio_nodup (dur : Option ℚ) (c : ℚ) (ext : ℕ → Bool) :
    (splitAudio dur c ext).Nodup := by
  cases dur with
  | none => simp [splitAudio]
  | some d =>
    simp only [splitAudio]
    split
    · simp
    · split
      · simp
      · split
        · simp
        · apply List.Nodup.filterMap
          · intro a a' b hb hb'
            simp only [Option.mem_def] at hb hb'
            by_cases ha : ext a = true
            · by_cases ha' : ext a' = true
              · rw [if_pos ha] at hb
                rw [if_pos ha'] at hb'
                have h3 : Segment.chunk a = Segment.chunk a' :=
                  (Option.some.inj hb).trans (Option.some.inj hb').symm
                exact Segment.chunk.inj h3
              · rw [if_neg ha'] at hb'
                simp at hb'
            · rw [if_neg ha] at hb
              simp at hb
          · exact List.nodup_range _

/-- The chunk-path list handed to the workers has no duplicates. -/
theorem chunkPathsOf_nodup (size : ℕ) (dur : Option ℚ) (ext : ℕ → Bool) :
    (chunkPathsOf size dur ext).Nodup := by
  unfold chunkPathsOf
  split
  · exact splitAudio_nodup dur CHUNK_DURATION ext
  · simp

/-- `chunks_to_cleanup` has no duplicates either. -/
theorem toCleanupOf_nodup (size : ℕ) (dur : Option ℚ) (ext : ℕ → Bool) :
    (toCleanupOf size dur ext).Nodup :=
  (chunkPathsOf_nodup size dur ext).filter _

/-! ### The claims -/

/-- Claim C4: for every rate-limit error whose (parsed) wait hint is
`try again in 1m30s` — i.e. the regex search over the message captures
groups `"1"` and `"30"` — the computed back-off wait is exactly
`95` seconds (1*60 + 30 + 5); and for every rate-limit error with no
parseable wait hint occurring on the attempt whose fallback retry is the
second one (loop variable `attempt = 1`), the computed wait is exactly
`120` seconds (`60 * (attempt + 1)`). -/
theorem claim_C4_backoff (msg : String) (a : ℤ) :
    (findHintAux msg.toList = some (['1'], some ['3', '0']) →
      computeWait msg a = some 95) ∧
    (findHintAux msg.toList = none → computeWait msg 1 = some 120) := by
  constructor
  · intro h
    unfold computeWait
    rw [h]
    have h1 : parsePyFloat ['3', '0'] = some ((30 : ℕ) : ℚ) := rfl
    show (match parsePyFloat ['3', '0'] with
      | none => none
      | some s => some ((parseNatDigits ['1'] : ℚ) * 60 + s + 5)) = some 95
    rw [h1]
    show some ((parseNatDigits ['1'] : ℚ) * 60 + ((30 : ℕ) : ℚ) + 5) = some 95
    have h2 : parseNatDigits ['1'] = 1 := rfl
    rw [h2]
    simp only [Option.some.injEq]
    norm_num
  · intro h
    unfold computeWait
    rw [h]
    show some ((60 : ℚ) * (((1 : ℤ) : ℚ) + 1)) = some 120
    simp only [Option.some.injEq]
    norm_num

/-- Witness for C4 at concrete messages: `"429: try again in 1m30s"`
parses to groups `"1"`/`"30"` and yields a 95 second wait; an unparseable
`"rate_limit exceeded"` on `attempt = 1` yields 120 seconds. -/
theorem claim_C4_witness :
    findHintAux ("429: try again in 1m30s").toList =
        some (['1'], some ['3', '0']) ∧
    computeWait "429: try again in 1m30s" 7 = some 95 ∧
    findHintAux ("rate_limit exceeded").toList = none ∧
    computeWait "rate_limit exceeded" 1 = some 120 :=
  ⟨by decide, (claim_C4_backoff "429: try again in 1m30s" 7).1 (by decide),
    by decide, (claim_C4_backoff "rate_limit exceeded" 1).2 (by decide)⟩

/-- Claim C5 (code bug): the spec says a seconds-only hint such as
`try again in 20s` yields `20 + 5 = 25` seconds, but the regex
`try again in (\d+)m?([\d.]+)?s?` captures `20` into the minutes group
(`m?` and the seconds group are both optional), so the code computes
`20*60 + 0 + 5 = 1205` seconds.  This theorem evaluates the embedded
back-off computation at the failing input. -/
theorem claim_C5_seconds_only_hint :
    computeWait "Rate limit reached. 429. try again in 20s" 0 = some 1205 ∧
    (1205 : ℚ) ≠ 25 := by
  refine ⟨?_, by norm_num⟩
  have h : findHintAux ("Rate limit reached. 429. try again in 20s").toList =
      some (['2', '0'], none) := by decide
  unfold computeWait
  rw [h]
  show some ((parseNatDigits ['2', '0'] : ℚ) * 60 + 0 + 5) = some 1205
  have h2 : parseNatDigits ['2', '0'] = 20 := rfl
  rw [h2]
  simp only [Option.some.injEq]
  norm_num

/-- Claim C6: for every provider behaviour, a segment's provider call is
attempted at most 4 times in total (`max_retries = 3`); the loop goes past
attempt `k` only if the response to attempt `k` was an error classified as
a rate limit; and a non-rate-limit error at a reached attempt `k` is
raised immediately with no further provider call (`calls = k + 1`). -/
theorem claim_C6_retry_policy (provider : ℤ → ProviderResp) (idx : ℕ) :
    (transcribeSingle provider idx 3).2 ≤ 4 ∧
    (∀ k : ℕ, k + 1 < (transcribeSingle provider idx 3).2 →
      ∃ m, provider (k : ℤ) = .err m ∧ isRateLimit m = true) ∧
    (∀ (k : ℕ) (m : String), k + 1 ≤ (transcribeSingle provider idx 3).2 →
      provider (k : ℤ) = .err m → isRateLimit m = false →
      (transcribeSingle provider idx 3).1 = TSOutcome.raised m ∧
        (transcribeSingle provider idx 3).2 = k + 1) := by
  have hts : transcribeSingle provider idx 3 = tsLoop provider idx 3 0 4 := rfl
  refine ⟨?_, ?_, ?_⟩
  · rw [hts]
    exact tsLoop_calls_le provider idx 3 4 0
  · intro k hk
    rw [hts] at hk
    have := tsLoop_retry_rate provider idx 3 4 0 k hk
    simpa using this
  · intro k m hk hp hr
    rw [hts]
    rw [hts] at hk
    exact tsLoop_err_prop provider idx 3 4 0 k m hk (by simpa using hp) hr

/-- Witness for C6: a provider that rate-limits the first attempt
(message containing `429`) and then fails the second attempt with a
non-rate-limit error makes exactly 2 calls and raises that error. -/
theorem claim_C6_witness :
    (transcribeSingle
      (fun a => if a = 0 then ProviderResp.err "429 too many requests"
        else ProviderResp.err "boom") 0 3).2 ≤ 4 ∧
    (∃ m, (fun a => if a = 0 then ProviderResp.err "429 too many requests"
        else ProviderResp.err "boom") ((0 : ℕ) : ℤ) = ProviderResp.err m ∧
      isRateLimit m = true) ∧
    ((transcribeSingle
      (fun a => if a = 0 then ProviderResp.err "429 too many requests"
        else ProviderResp.err "boom") 0 3).1 = TSOutcome.raised "boom" ∧
     (transcribeSingle
      (fun a => if a = 0 then ProviderResp.err "429 too many requests"
        else ProviderResp.err "boom") 0 3).2 = 1 + 1) := by
  have h := claim_C6_retry_policy
    (fun a => if a = 0 then ProviderResp.err "429 too many requests"
      else ProviderResp.err "boom") 0
  exact ⟨h.1, h.2.1 0 (by decide),
    h.2.2 1 "boom" (by decide) (by decide) (by decide)⟩

/-- Claim C10 (counterexample): the claim says the implicit fall-through
`return None` of `_transcribe_single` is unreachable for every input, but
passing `max_retries = -1` makes `range(max_retries + 1)` empty and the
function returns `None` without any provider call. -/
theorem claim_C10_counterexample :
    (transcribeSingle (fun _ => ProviderResp.err "x") 0 (-1)).1 =
      TSOutcome.fallThrough := rfl

/-- Claim C10 (amended): for every non-negative `max_retries` — in
particular the default 3 used by every caller — `_transcribe_single`
either returns a result dictionary or raises: the fall-through `None`
is unreachable. -/
theorem claim_C10_amended (p : ℤ → ProviderResp) (idx : ℕ) (maxR : ℤ)
    (h : 0 ≤ maxR) :
    (transcribeSingle p idx maxR).1 ≠ TSOutcome.fallThrough :=
  transcribeSingle_ne_fallThrough p idx maxR h

/-- Witness for the amended C10 at `max_retries = 3`. -/
theorem claim_C10_witness :
    (0 : ℤ) ≤ 3 ∧
    (transcribeSingle (fun _ => ProviderResp.ok "t" "en" none) 0 3).1 ≠
      TSOutcome.fallThrough :=
  ⟨by decide,
    claim_C10_amended (fun _ => ProviderResp.ok "t" "en" none) 0 3 (by decide)⟩

/-- Chunk count for the demo input: a 3000 second recording at the fixed
1500 second chunk duration plans exactly 2 chunks. -/
theorem numChunksFor_3000 : numChunksFor 3000 CHUNK_DURATION = 2 := by
  unfold numChunksFor CHUNK_DURATION
  have h1 : (3000 : ℚ) / 1500 = 2 := by norm_num
  rw [h1]
  have h2 : ⌊(2 : ℚ)⌋ = 2 := by
    rw [show (2 : ℚ) = ((2 : ℤ) : ℚ) by norm_num]
    exact Int.floor_intCast 2
  rw [h2]
  norm_num

/-- The splitter on the demo input produces the two chunk files. -/
theorem splitAudio_demo :
    splitAudio (some 3000) CHUNK_DURATION (fun _ => true) =
      [Segment.chunk 0, Segment.chunk 1] := by
  simp only [splitAudio]
  rw [if_neg (by norm_num : ¬(3000 : ℚ) = 0), numChunksFor_3000]
  decide

/-- An oversized blob (25 MiB + 1 byte) with the demo duration yields the
two chunk files as the worker inputs. -/
theorem chunkPathsOf_demo :
    chunkPathsOf (MAX_FILE_SIZE + 1) (some 3000) (fun _ => true) =
      [Segment.chunk 0, Segment.chunk 1] := by
  unfold chunkPathsOf
  rw [if_pos (Nat.lt_succ_self MAX_FILE_SIZE)]
  exact splitAudio_demo

/-- Claim C2 (counterexample): the claim says `transcribe` does not raise
for a per-segment transcription failure even when the blob yields exactly
one segment; but on the single-segment path (line 286) there is no
try/except, so a non-rate-limit provider error propagates and the call
raises (`.error`), not a placeholder aggregate. -/
theorem claim_C2_counterexample :
    transcribe 100 none (fun _ => true) (fun _ _ => ProviderResp.err "boom")
      [0] = Except.error "boom" := by
  have hcp : chunkPathsOf 100 none (fun _ => true) = [Segment.whole] := by
    unfold chunkPathsOf
    rw [if_neg (by decide)]
  unfold transcribe
  rw [hcp, if_neg (by simp)]
  rfl

/-- Claim C2 (amended): for every multi-segment transcription (more than
one chunk path), `transcribe` returns an aggregate — it never raises,
whatever the provider does on any segment and whatever the completion
order; per-segment failures are absorbed as placeholders.  A
single-segment transcription failure, by contrast, propagates
(see the counterexample). -/
theorem claim_C2_amended (size : ℕ) (dur : Option ℚ) (ext : ℕ → Bool)
    (provider : ℕ → ℤ → ProviderResp) (order : List ℕ)
    (hn : 1 < (chunkPathsOf size dur ext).length) :
    ∃ a, transcribe size dur ext provider order = Except.ok a :=
  ⟨_, transcribe_multi size dur ext provider order hn⟩

/-- Witness for the amended C2: an oversized two-chunk blob whose every
provider call fails still returns `.ok`. -/
theorem claim_C2_witness :
    1 < (chunkPathsOf (MAX_FILE_SIZE + 1) (some 3000) (fun _ => true)).length ∧
    ∃ a, transcribe (MAX_FILE_SIZE + 1) (some 3000) (fun _ => true)
      (fun _ _ => ProviderResp.err "boom") [0, 1] = Except.ok a := by
  have hn : 1 < (chunkPathsOf (MAX_FILE_SIZE + 1) (some 3000)
      (fun _ => true)).length := by
    rw [chunkPathsOf_demo]
    norm_num
  exact ⟨hn, claim_C2_amended _ _ _ _ _ hn⟩

/-- Claim C3 (amended): for every blob at most 25 MiB, `transcribe` uses
the staged blob as the single chunk (no splitting — the result does not
depend on the probe or extraction oracles), performs the one segment
transcription, and returns its text and language verbatim; the duration
is returned verbatim when positive, and as absent when the segment's
duration is absent or not positive. -/
theorem claim_C3_amended (size : ℕ) (dur : Option ℚ) (ext : ℕ → Bool)
    (provider : ℕ → ℤ → ProviderResp) (order : List ℕ) (r : ChunkResult)
    (hsize : size ≤ MAX_FILE_SIZE)
    (hr : (transcribeSingle (provider 0) 0 3).1 = TSOutcome.ret r) :
    chunkPathsOf size dur ext = [Segment.whole] ∧
    transcribe size dur ext provider order =
      Except.ok ⟨r.text, r.language,
        if 0 < r.duration.getD 0 then some (r.duration.getD 0) else none⟩ := by
  have hcp : chunkPathsOf size dur ext = [Segment.whole] := by
    unfold chunkPathsOf
    rw [if_neg (by omega)]
  refine ⟨hcp, ?_⟩
  unfold transcribe
  rw [hcp, if_neg (by simp), hr]
  show Except.ok (combineResults [r]) = _
  rw [combineResults_single]

/-- Witness for the amended C3: a 100 byte blob transcribed with text
`"hi"`, language `"en"` and duration 7 comes back verbatim. -/
theorem claim_C3_witness :
    (100 ≤ MAX_FILE_SIZE) ∧
    chunkPathsOf 100 (some 3000) (fun _ => false) = [Segment.whole] ∧
    transcribe 100 (some 3000) (fun _ => false)
      (fun _ _ => ProviderResp.ok "hi" "en" (some 7)) [0] =
      Except.ok ⟨"hi", "en", some 7⟩ := by
  have h := claim_C3_amended 100 (some 3000) (fun _ => false)
    (fun _ _ => ProviderResp.ok "hi" "en" (some 7)) [0]
    ⟨0, "hi", "en", some 7⟩ (by decide) rfl
  refine ⟨by decide, h.1, ?_⟩
  rw [h.2]
  norm_num

/-- Claim C3 (counterexample): a small blob whose single segment reports
duration `0.0` does not get that duration back verbatim: the aggregate
duration is `None` (the code returns the total only when it is
positive). -/
theorem claim_C3_counterexample :
    transcribe 100 none (fun _ => true)
      (fun _ _ => ProviderResp.ok "hi" "en" (some 0)) [0] =
      Except.ok ⟨"hi", "en", none⟩ ∧
    Aggregate.mk "hi" "en" none ≠ Aggregate.mk "hi" "en" (some 0) := by
  constructor
  · have hcp : chunkPathsOf 100 none (fun _ => true) = [Segment.whole] := by
      unfold chunkPathsOf
      rw [if_neg (by decide)]
    unfold transcribe
    rw [hcp, if_neg (by simp)]
    have hts : (transcribeSingle
        ((fun _ _ => ProviderResp.ok "hi" "en" (some (0 : ℚ))) (0 : ℕ)) 0 3).1 =
        TSOutcome.ret ⟨0, "hi", "en", some 0⟩ := rfl
    rw [hts]
    show Except.ok (combineResults [⟨0, "hi", "en", some 0⟩]) = _
    rw [combineResults_single]
    norm_num
  · intro hcon
    simp at hcon

/-- Claim C1: for every multi-segment transcription and every completion
order (any permutation of the chunk indices, modelling any interleaving
of concurrent completion times), the aggregate `transcribe` returns —
text included — is identical to the one produced by collecting the
segments sequentially in index order: sorting the collected results by
index before joining makes the merge independent of completion order. -/
theorem claim_C1_merge_order (size : ℕ) (dur : Option ℚ) (ext : ℕ → Bool)
    (provider : ℕ → ℤ → ProviderResp) (order : List ℕ)
    (hn : 1 < (chunkPathsOf size dur ext).length)
    (hperm : order.Perm (List.range (chunkPathsOf size dur ext).length)) :
    transcribe size dur ext provider order =
      transcribe size dur ext provider
        (List.range (chunkPathsOf size dur ext).length) := by
  rw [transcribe_multi size dur ext provider order hn,
    transcribe_multi size dur ext provider _ hn]
  exact congrArg (fun ms => Except.ok (combineResults ms))
    (mergeSort_map_eq (resOf provider) (resOf_index provider)
      (List.nodup_range _) hperm)

/-- Witness for C1: for the demo two-chunk blob, the run whose second
chunk completes first merges to the same aggregate as the sequential
index-order run. -/
theorem claim_C1_witness :
    1 < (chunkPathsOf (MAX_FILE_SIZE + 1) (some 3000) (fun _ => true)).length ∧
    List.Perm [1, 0]
      (List.range (chunkPathsOf (MAX_FILE_SIZE + 1) (some 3000)
        (fun _ => true)).length) ∧
    transcribe (MAX_FILE_SIZE + 1) (some 3000) (fun _ => true)
        (fun i _ => ProviderResp.ok (toString i) "en" (some 1)) [1, 0] =
      transcribe (MAX_FILE_SIZE + 1) (some 3000) (fun _ => true)
        (fun i _ => ProviderResp.ok (toString i) "en" (some 1))
        (List.range (chunkPathsOf (MAX_FILE_SIZE + 1) (some 3000)
          (fun _ => true)).length) := by
  have hn : 1 < (chunkPathsOf (MAX_FILE_SIZE + 1) (some 3000)
      (fun _ => true)).length := by
    rw [chunkPathsOf_demo]
    norm_num
  have hperm : List.Perm [1, 0]
      (List.range (chunkPathsOf (MAX_FILE_SIZE + 1) (some 3000)
        (fun _ => true)).length) := by
    rw [chunkPathsOf_demo]
    decide
  exact ⟨hn, hperm, claim_C1_merge_order _ _ _ _ _ hn hperm⟩

/-- Claim C7 (amended): in a two-segment transcription whose second
segment fails terminally with error `e`, the aggregate is
`segment0_text ++ "\n\n" ++ "[Chunk 2 failed: <first 50 chars of e>]"` —
the marker says `Chunk`, not `Segment` as the claim stated — with the
language taken from segment 0 and the duration equal to segment 0's
known duration when positive, absent otherwise. -/
theorem claim_C7_amended (size : ℕ) (dur : Option ℚ) (ext : ℕ → Bool)
    (provider : ℕ → ℤ → ProviderResp) (order : List ℕ) (r0 : ChunkResult)
    (e : String)
    (hn : (chunkPathsOf size dur ext).length = 2)
    (hperm : order.Perm [0, 1])
    (h0 : (transcribeSingle (provider 0) 0 3).1 = TSOutcome.ret r0)
    (h1 : (transcribeSingle (provider 1) 1 3).1 = TSOutcome.raised e) :
    transcribe size dur ext provider order =
      Except.ok ⟨r0.text ++ "\n\n" ++ "[Chunk 2 failed: " ++ e.take 50 ++ "]",
        r0.language,
        if 0 < r0.duration.getD 0 then some (r0.duration.getD 0) else none⟩ := by
  have hn' : 1 < (chunkPathsOf size dur ext).length := by omega
  have hres0 : resOf provider 0 = r0 := by unfold resOf; rw [h0]
  have hres1 : resOf provider 1 = placeholderFor 1 e := by unfold resOf; rw [h1]
  have hidx : r0.index = 0 := by
    rw [← hres0]
    exact resOf_index provider 0
  have hperm2 : order.Perm (List.range 2) := by
    rw [show List.range 2 = [0, 1] from by decide]
    exact hperm
  rw [transcribe_multi size dur ext provider order hn']
  rw [mergeSort_map_eq (resOf provider) (resOf_index provider)
    (List.nodup_range 2) hperm2]
  have hmap : (List.range 2).map (resOf provider) = [r0, placeholderFor 1 e] := by
    rw [show List.range 2 = [0, 1] from by decide]
    simp [hres0, hres1]
  rw [hmap]
  have hsort : ([r0, placeholderFor 1 e]).Pairwise
      (fun a b => chunkLe a b = true) :=
    List.pairwise_pair.mpr (by simp [chunkLe, hidx, placeholderFor])
  rw [List.mergeSort_of_sorted hsort]
  rw [combineResults_with_placeholder r0 1 e]
  rw [show (toString (1 + 1 : ℕ)) = "2" from by decide]
  rw [String.append_assoc (r0.text ++ "\n\n") "[Chunk " "2",
    String.append_assoc (r0.text ++ "\n\n") ("[Chunk " ++ "2") " failed: ",
    show ("[Chunk " ++ "2") ++ " failed: " = ("[Chunk 2 failed: " : String)
      from rfl]

/-- Witness for the amended C7 on the demo blob: segment 0 succeeds with
`"seg0"`/`"zh"`/duration 4, segment 1 fails with `"bad"`, completion order
reversed. -/
theorem claim_C7_witness :
    (chunkPathsOf (MAX_FILE_SIZE + 1) (some 3000) (fun _ => true)).length = 2 ∧
    List.Perm [1, 0] [0, 1] ∧
    transcribe (MAX_FILE_SIZE + 1) (some 3000) (fun _ => true)
        (fun i _ => if i = 0 then ProviderResp.ok "seg0" "zh" (some 4)
          else ProviderResp.err "bad") [1, 0] =
      Except.ok ⟨"seg0" ++ "\n\n" ++ "[Chunk 2 failed: " ++
          ("bad" : String).take 50 ++ "]", "zh", some 4⟩ := by
  have hn : (chunkPathsOf (MAX_FILE_SIZE + 1) (some 3000)
      (fun _ => true)).length = 2 := by
    rw [chunkPathsOf_demo]
    rfl
  have h := claim_C7_amended (MAX_FILE_SIZE + 1) (some 3000) (fun _ => true)
    (fun i _ => if i = 0 then ProviderResp.ok "seg0" "zh" (some 4)
      else ProviderResp.err "bad") [1, 0] ⟨0, "seg0", "zh", some 4⟩ "bad"
    hn (by decide) rfl rfl
  refine ⟨hn, by decide, ?_⟩
  rw [h]
  norm_num

/-- Claim C7 (counterexample): the marker the code embeds for a failed
segment reads `[Chunk N failed: ...]`, not `[Segment N failed: ...]` as
claimed: a two-segment run whose second segment fails with `"boom"`
produces `"hello\n\n[Chunk 2 failed: boom]"`, which differs from the text
the claim requires. -/
theorem claim_C7_counterexample :
    transcribe (MAX_FILE_SIZE + 1) (some 3000) (fun _ => true)
      (fun i _ => if i = 0 then ProviderResp.ok "hello" "en" (some 10)
        else ProviderResp.err "boom") [0, 1] =
      Except.ok ⟨"hello\n\n[Chunk 2 failed: boom]", "en", some 10⟩ ∧
    ("hello\n\n[Chunk 2 failed: boom]" : String) ≠
      "hello" ++ "\n\n" ++ "[Segment 2 failed: boom]" := by
  refine ⟨?_, by decide⟩
  have hn' : 1 < (chunkPathsOf (MAX_FILE_SIZE + 1) (some 3000)
      (fun _ => true)).length := by
    rw [chunkPathsOf_demo]
    norm_num
  rw [transcribe_multi _ _ _ _ _ hn']
  have hmap : ([0, 1].map (resOf
      (fun i _ => if i = 0 then ProviderResp.ok "hello" "en" (some 10)
        else ProviderResp.err "boom"))) =
      [⟨0, "hello", "en", some 10⟩, placeholderFor 1 "boom"] := by
    have e0 : resOf
        (fun i _ => if i = 0 then ProviderResp.ok "hello" "en" (some 10)
          else ProviderResp.err "boom") 0 =
        (⟨0, "hello", "en", some 10⟩ : ChunkResult) := rfl
    have e1 : resOf
        (fun i _ => if i = 0 then ProviderResp.ok "hello" "en" (some 10)
          else ProviderResp.err "boom") 1 = placeholderFor 1 "boom" := rfl
    simp [e0, e1]
  rw [hmap]
  have hsort : ([(⟨0, "hello", "en", some 10⟩ : ChunkResult),
      placeholderFor 1 "boom"]).Pairwise (fun a b => chunkLe a b = true) :=
    List.pairwise_pair.mpr (by decide)
  rw [List.mergeSort_of_sorted hsort]
  rw [combineResults_with_placeholder ⟨0, "hello", "en", some 10⟩ 1 "boom"]
  have htxt : (⟨0, "hello", "en", some 10⟩ : ChunkResult).text ++ "\n\n" ++
      "[Chunk " ++ toString (1 + 1 : ℕ) ++ " failed: " ++
      ("boom" : String).take 50 ++ "]" = "hello\n\n[Chunk 2 failed: boom]" := rfl
  rw [htxt]
  norm_num

/-- Claim C8: for every blob processed by the splitter at the fixed
25-minute chunk duration: when the probed duration is known (and not the
falsy `0.0`), the planned segment count is exactly
`ceil(duration / chunk_duration)`, and a count of at most 1 returns the
whole blob as the single segment; when the probe is absent — and also
when it reports `0.0` — the whole blob is returned for every extraction
oracle (no extraction attempted); and in every case the returned sequence
is non-empty. -/
theorem claim_C8_splitter (dur : Option ℚ) (d : ℚ) (ext : ℕ → Bool) :
    (dur = some d → d ≠ 0 →
      numChunksFor d CHUNK_DURATION = ⌈d / CHUNK_DURATION⌉ ∧
      (⌈d / CHUNK_DURATION⌉ ≤ 1 →
        splitAudio dur CHUNK_DURATION ext = [Segment.whole])) ∧
    (∀ e : ℕ → Bool, splitAudio none CHUNK_DURATION e = [Segment.whole]) ∧
    (∀ e : ℕ → Bool, splitAudio (some 0) CHUNK_DURATION e = [Segment.whole]) ∧
    splitAudio dur CHUNK_DURATION ext ≠ [] := by
  refine ⟨?_, ?_, ?_, splitAudio_ne_nil dur CHUNK_DURATION ext⟩
  · intro hd hd0
    have hc : (0 : ℚ) < CHUNK_DURATION := by norm_num [CHUNK_DURATION]
    have hceil := numChunksFor_eq_ceil d CHUNK_DURATION hc
    refine ⟨hceil, ?_⟩
    intro hle
    subst hd
    simp only [splitAudio]
    rw [if_neg hd0]
    by_cases h1 : numChunksFor d CHUNK_DURATION = 1
    · rw [if_pos h1]
    · rw [if_neg h1]
      have hn0 : (numChunksFor d CHUNK_DURATION).toNat = 0 := by
        rw [hceil]
        rw [hceil] at h1
        omega
      rw [hn0]
      simp
  · intro e
    simp [splitAudio]
  · intro e
    simp [splitAudio]

/-- Witness for C8: a 600 second recording plans `ceil(600/1500) = 1`
segment and the splitter returns the whole blob; an absent or `0.0`
probe returns the whole blob; the demo input returns a non-empty list. -/
theorem claim_C8_witness :
    numChunksFor 600 CHUNK_DURATION = ⌈(600 : ℚ) / CHUNK_DURATION⌉ ∧
    splitAudio (some 600) CHUNK_DURATION (fun _ => true) = [Segment.whole] ∧
    splitAudio none CHUNK_DURATION (fun _ => true) = [Segment.whole] ∧
    splitAudio (some 0) CHUNK_DURATION (fun _ => true) = [Segment.whole] ∧
    splitAudio (some 3000) CHUNK_DURATION (fun _ => true) ≠ [] := by
  have h := claim_C8_splitter (some 600) 600 (fun _ => true)
  have h1 := h.1 rfl (by norm_num)
  have hceil : ⌈(600 : ℚ) / CHUNK_DURATION⌉ = 1 := by
    have hq : (600 : ℚ) / CHUNK_DURATION = 2 / 5 := by norm_num [CHUNK_DURATION]
    rw [hq, Int.ceil_eq_iff]
    constructor
    · norm_num
    · norm_num
  refine ⟨h1.1, h1.2 (le_of_eq hceil), ?_, ?_, ?_⟩
  · exact (claim_C8_splitter none 600 (fun _ => true)).2.1 (fun _ => true)
  · exact (claim_C8_splitter none 600 (fun _ => true)).2.2.1 (fun _ => true)
  · exact (claim_C8_splitter (some 3000) 600 (fun _ => true)).2.2.2

/-- Claim C9 (amended): on every exit path (the `finally` block runs
unconditionally, so the cleanup trace is independent of provider
behaviour and of success or failure), the staged blob file is unlinked
exactly once, every produced segment file is unlinked exactly once, and
the staging directory is removed exactly once whenever at least one
segment file was produced.  When the splitter was invoked but returned
only the whole-file fallback, the directory is leaked (see the
counterexample), which is the sole deviation from the claim. -/
theorem claim_C9_cleanup (size : ℕ) (dur : Option ℚ) (ext : ℕ → Bool) :
    (transcribeCleanup size dur ext).blobUnlinks = 1 ∧
    (∀ s ∈ (transcribeCleanup size dur ext).chunkUnlinkList,
      (transcribeCleanup size dur ext).chunkUnlinkList.count s = 1) ∧
    ((transcribeCleanup size dur ext).chunkUnlinkList ≠ [] →
      (transcribeCleanup size dur ext).dirReleases = 1) := by
  refine ⟨rfl, ?_, ?_⟩
  · intro s hs
    have hnd : ((transcribeCleanup size dur ext).chunkUnlinkList).Nodup :=
      toCleanupOf_nodup size dur ext
    exact List.count_eq_one_of_mem hnd hs
  · intro hne
    have hlen : 0 < (toCleanupOf size dur ext).length :=
      List.length_pos.mpr hne
    unfold CleanupTrace.dirReleases
    rw [if_pos (show 0 < (transcribeCleanup size dur ext).rmdirAttempts
      from hlen)]

/-- Witness for the amended C9 on the demo two-chunk blob: the blob is
unlinked once, the produced chunk file 0 is unlinked once, and the
staging directory is removed once. -/
theorem claim_C9_witness :
    (transcribeCleanup (MAX_FILE_SIZE + 1) (some 3000)
      (fun _ => true)).blobUnlinks = 1 ∧
    (transcribeCleanup (MAX_FILE_SIZE + 1) (some 3000)
      (fun _ => true)).chunkUnlinkList.count (Segment.chunk 0) = 1 ∧
    (transcribeCleanup (MAX_FILE_SIZE + 1) (some 3000)
      (fun _ => true)).dirReleases = 1 := by
  have h := claim_C9_cleanup (MAX_FILE_SIZE + 1) (some 3000) (fun _ => true)
  have hcl : (transcribeCleanup (MAX_FILE_SIZE + 1) (some 3000)
      (fun _ => true)).chunkUnlinkList = [Segment.chunk 0, Segment.chunk 1] := by
    show toCleanupOf (MAX_FILE_SIZE + 1) (some 3000) (fun _ => true) = _
    unfold toCleanupOf
    rw [chunkPathsOf_demo]
    rfl
  refine ⟨h.1, h.2.1 (Segment.chunk 0) ?_, h.2.2 ?_⟩
  · rw [hcl]
    decide
  · rw [hcl]
    decide

/-- Claim C9 (counterexample): for an oversized blob whose duration probe
fails, `_split_audio` creates the `mkdtemp` staging directory but returns
the whole-file fallback, so `chunks_to_cleanup` is empty and the
`finally` block never attempts an `rmdir`: the staging directory is
created yet released zero times, contradicting the claim that it is
released exactly once on every exit path. -/
theorem claim_C9_counterexample :
    (transcribeCleanup (MAX_FILE_SIZE + 1) none (fun _ => true)).dirCreated =
      true ∧
    (transcribeCleanup (MAX_FILE_SIZE + 1) none (fun _ => true)).dirReleases =
      0 :=
  ⟨rfl, rfl⟩
